import Mathlib

/-!
Shallow embedding of `zonos/backbone/_mlx.py`: the MLX transformer backbone of
the Zonos text-to-speech token predictor.  Tensors are modelled as total
functions from natural-number indices to their element type (with explicit
shape data carried alongside where the code depends on it); machine floats are
modelled as real numbers; the Python `assert` failures are modelled by
`Option`-valued results, where `none` stands for a raised `AssertionError` and
the state component returned alongside is the interpreter state at that point
(unchanged when the assertion fired before any write).
-/

namespace ZonosMLX

/-- KV cache buffer of one layer: a 5-dimensional buffer of shape
`(batchSize, maxSeqlen, 2, numHeadsKV, headDim)`.  The third axis (of size 2)
selects key (index 0) versus value (index 1); its extent is not stored as a
field because it is the fixed literal `2` in the allocation. `data` is the
element at `(batch, seqpos, kv, head, dim)`. -/
structure KVCacheBuf (α : Type) where
  batchSize : ℕ
  maxSeqlen : ℕ
  numHeadsKV : ℕ
  headDim : ℕ
  data : ℕ → ℕ → ℕ → ℕ → ℕ → α

/-- The slice `kv_cache[batch_start:batch_end, :sequence_end, ...]` returned by
the cache updater: shape `(batchChunk, seqLen, 2, numHeadsKV, headDim)` with
`data` indexed relative to the batch window. -/
structure KVView (α : Type) where
  batchChunk : ℕ
  seqLen : ℕ
  numHeadsKV : ℕ
  headDim : ℕ
  data : ℕ → ℕ → ℕ → ℕ → ℕ → α

/-- State record `InferenceParams` as consumed by the backbone: current batch / sequence
write offsets, per-sample absolute lengths, and the per-layer cache dictionary
whose entries are the `(buffer, None)` pairs produced by
`TransformerBlock.allocate_inference_cache`. -/
structure InferenceParams (α : Type) where
  batch_size_offset : ℕ
  seqlen_offset : ℕ
  lengths_per_sample : ℕ → ℕ
  key_value_memory_dict : ℕ → Option (KVCacheBuf α × Unit)

/-- Cache allocation `TransformerBlock.allocate_inference_cache`: returns the pair
`(mx.empty(batch_size, max_seqlen, 2, self.num_heads_kv, self.head_dim), None)`.
The buffer is uninitialised, so its initial contents are an arbitrary
function `uninit`. -/
def TransformerBlock.allocate_inference_cache (num_heads_kv head_dim : ℕ)
    (batch_size max_seqlen : ℕ) (uninit : ℕ → ℕ → ℕ → ℕ → ℕ → α) :
    KVCacheBuf α × Unit :=
  (⟨batch_size, max_seqlen, num_heads_kv, head_dim, uninit⟩, ())

/-- The two slice assignments
`kv_cache[batch_start:batch_end, sequence_start:sequence_end, 0, ...] = k` and
`kv_cache[batch_start:batch_end, sequence_start:sequence_end, 1, ...] = v`,
expressed as one functional update of the buffer contents. -/
def writeWindow (cacheData : ℕ → ℕ → ℕ → ℕ → ℕ → α) (k v : ℕ → ℕ → ℕ → ℕ → α)
    (batch_start batch_end sequence_start sequence_end : ℕ) :
    ℕ → ℕ → ℕ → ℕ → ℕ → α :=
  fun b s c h d =>
    if batch_start ≤ b ∧ b < batch_end ∧ sequence_start ≤ s ∧ s < sequence_end ∧ c = 0 then
      k (b - batch_start) (s - sequence_start) h d
    else if batch_start ≤ b ∧ b < batch_end ∧ sequence_start ≤ s ∧ s < sequence_end ∧ c = 1 then
      v (b - batch_start) (s - sequence_start) h d
    else cacheData b s c h d

/-- Cache updater `_update_kv_cache(k, v, inference_params, layer_idx)`.  `k`/`v` are chunks
of shape `(batchChunk, seqChunk, nheads, head_dim)` (the shape is passed
explicitly since chunk tensors are bare index functions).  The Python code
asserts `layer_idx in key_value_memory_dict`, `batch_end <= kv_cache.shape[0]`
and `sequence_end <= kv_cache.shape[1]` before performing any write, then
writes `k` into axis-2 index 0 and `v` into axis-2 index 1 of the addressed
window and returns `kv_cache[batch_start:batch_end, :sequence_end, ...]`.
The result is `(state after the call, some view)` on success and
`(unchanged state, none)` when an assertion fired. -/
def _update_kv_cache (k v : ℕ → ℕ → ℕ → ℕ → α) (batchChunk seqChunk : ℕ)
    (inference_params : InferenceParams α) (layer_idx : ℕ) :
    InferenceParams α × Option (KVView α) :=
  match inference_params.key_value_memory_dict layer_idx with
  | none => (inference_params, none)
  | some (kv_cache, _) =>
    let batch_start := inference_params.batch_size_offset
    let batch_end := batch_start + batchChunk
    let sequence_start := inference_params.seqlen_offset
    let sequence_end := sequence_start + seqChunk
    if batch_end ≤ kv_cache.batchSize ∧ sequence_end ≤ kv_cache.maxSeqlen then
      let newData : ℕ → ℕ → ℕ → ℕ → ℕ → α :=
        writeWindow kv_cache.data k v batch_start batch_end sequence_start sequence_end
      let newCache : KVCacheBuf α := { kv_cache with data := newData }
      ({ inference_params with
          key_value_memory_dict := fun i =>
            if i = layer_idx then some (newCache, ())
            else inference_params.key_value_memory_dict i },
       some ⟨batchChunk, sequence_end, kv_cache.numHeadsKV, kv_cache.headDim,
             fun b s c h d => newData (batch_start + b) s c h d⟩)
    else (inference_params, none)

/-- In the addressed window, axis-2 index 0 holds the new key chunk. -/
theorem writeWindow_key {α : Type} {cacheData : ℕ → ℕ → ℕ → ℕ → ℕ → α}
    {k v : ℕ → ℕ → ℕ → ℕ → α} {batch_start batch_end sequence_start sequence_end b s h d : ℕ}
    (h1 : batch_start ≤ b) (h2 : b < batch_end)
    (h3 : sequence_start ≤ s) (h4 : s < sequence_end) :
    writeWindow cacheData k v batch_start batch_end sequence_start sequence_end b s 0 h d
      = k (b - batch_start) (s - sequence_start) h d := by
  unfold writeWindow
  rw [if_pos ⟨h1, h2, h3, h4, rfl⟩]

/-- In the addressed window, axis-2 index 1 holds the new value chunk. -/
theorem writeWindow_value {α : Type} {cacheData : ℕ → ℕ → ℕ → ℕ → ℕ → α}
    {k v : ℕ → ℕ → ℕ → ℕ → α} {batch_start batch_end sequence_start sequence_end b s h d : ℕ}
    (h1 : batch_start ≤ b) (h2 : b < batch_end)
    (h3 : sequence_start ≤ s) (h4 : s < sequence_end) :
    writeWindow cacheData k v batch_start batch_end sequence_start sequence_end b s 1 h d
      = v (b - batch_start) (s - sequence_start) h d := by
  unfold writeWindow
  rw [if_neg (by omega), if_pos ⟨h1, h2, h3, h4, rfl⟩]

/-- Outside the addressed window the buffer contents are untouched. -/
theorem writeWindow_old {α : Type} {cacheData : ℕ → ℕ → ℕ → ℕ → ℕ → α}
    {k v : ℕ → ℕ → ℕ → ℕ → α} {batch_start batch_end sequence_start sequence_end b s c h d : ℕ}
    (hout : ¬(batch_start ≤ b ∧ b < batch_end ∧ sequence_start ≤ s ∧ s < sequence_end)) :
    writeWindow cacheData k v batch_start batch_end sequence_start sequence_end b s c h d
      = cacheData b s c h d := by
  unfold writeWindow
  rw [if_neg (by omega), if_neg (by omega)]

/-- C1: on a cache allocated with shape
`(batch_size, max_seqlen, 2, num_kv_heads, head_dim)`, an in-capacity update
writes `k` into axis-2 index 0 and `v` into axis-2 index 1 at the addressed
batch/sequence window, and returns the full valid prefix for the addressed
batch window: sequence length `seqlen_offset + seq_chunk`, positions below
`seqlen_offset` still holding the previously cached entries, the freshly
addressed window holding the new `k`/`v`. -/
theorem update_kv_cache_write_and_prefix_return
    (k v : ℕ → ℕ → ℕ → ℕ → α) (B n : ℕ) (params : InferenceParams α)
    (l num_kv_heads head_dim batch_size max_seqlen : ℕ)
    (uninit : ℕ → ℕ → ℕ → ℕ → ℕ → α)
    (hdict : params.key_value_memory_dict l =
      some (TransformerBlock.allocate_inference_cache num_kv_heads head_dim
        batch_size max_seqlen uninit))
    (hb : params.batch_size_offset + B ≤ batch_size)
    (hs : params.seqlen_offset + n ≤ max_seqlen) :
    (∀ b s h d, b < B → s < n →
      ((_update_kv_cache k v B n params l).1.key_value_memory_dict l).map
          (fun cu => cu.1.data (params.batch_size_offset + b) (params.seqlen_offset + s) 0 h d)
        = some (k b s h d) ∧
      ((_update_kv_cache k v B n params l).1.key_value_memory_dict l).map
          (fun cu => cu.1.data (params.batch_size_offset + b) (params.seqlen_offset + s) 1 h d)
        = some (v b s h d)) ∧
    ((_update_kv_cache k v B n params l).2).map KVView.seqLen = some (params.seqlen_offset + n) ∧
    ((_update_kv_cache k v B n params l).2).map KVView.batchChunk = some B ∧
    (∀ b s c h d, s < params.seqlen_offset →
      ((_update_kv_cache k v B n params l).2).map (fun w => w.data b s c h d)
        = some (uninit (params.batch_size_offset + b) s c h d)) ∧
    (∀ b s h d, b < B → s < n →
      ((_update_kv_cache k v B n params l).2).map (fun w => w.data b (params.seqlen_offset + s) 0 h d)
        = some (k b s h d) ∧
      ((_update_kv_cache k v B n params l).2).map (fun w => w.data b (params.seqlen_offset + s) 1 h d)
        = some (v b s h d)) := by
  unfold _update_kv_cache
  rw [hdict]
  simp only [TransformerBlock.allocate_inference_cache]
  rw [if_pos ⟨hb, hs⟩]
  simp only [eq_self_iff_true, if_true, Option.map_some', Option.some.injEq]
  refine ⟨?_, trivial, trivial, ?_, ?_⟩
  · intro b s h d hbB hsn
    constructor
    · rw [writeWindow_key (by omega) (by omega) (by omega) (by omega)]
      simp
    · rw [writeWindow_value (by omega) (by omega) (by omega) (by omega)]
      simp
  · intro b s c h d hslt
    rw [writeWindow_old (by omega)]
  · intro b s h d hbB hsn
    constructor
    · rw [writeWindow_key (by omega) (by omega) (by omega) (by omega)]
      simp
    · rw [writeWindow_value (by omega) (by omega) (by omega) (by omega)]
      simp

/-- Witness for C1 at a concrete input: one layer, cache of shape
`(1, 2, 2, 1, 1)` over `ℕ`, a single write of one `(1,1,1,1)` chunk at
offset 0, checked at index `(0,0,0,0)`. -/
theorem update_kv_cache_write_and_prefix_return_witness :
    ((_update_kv_cache (fun _ _ _ _ => 7) (fun _ _ _ _ => 9) 1 1
      ⟨0, 0, fun _ => 0, fun i => if i = 0 then
        some (TransformerBlock.allocate_inference_cache 1 1 1 2 (fun _ _ _ _ _ => 0)) else none⟩
      0).2).map KVView.seqLen = some (0 + 1) ∧
    ((_update_kv_cache (fun _ _ _ _ => 7) (fun _ _ _ _ => 9) 1 1
      ⟨0, 0, fun _ => 0, fun i => if i = 0 then
        some (TransformerBlock.allocate_inference_cache 1 1 1 2 (fun _ _ _ _ _ => 0)) else none⟩
      0).2).map KVView.batchChunk = some 1 ∧
    ((_update_kv_cache (fun _ _ _ _ => 7) (fun _ _ _ _ => 9) 1 1
      ⟨0, 0, fun _ => 0, fun i => if i = 0 then
        some (TransformerBlock.allocate_inference_cache 1 1 1 2 (fun _ _ _ _ _ => 0)) else none⟩
      0).1.key_value_memory_dict 0).map (fun cu => cu.1.data (0 + 0) (0 + 0) 0 0 0) = some 7 ∧
    ((_update_kv_cache (fun _ _ _ _ => 7) (fun _ _ _ _ => 9) 1 1
      ⟨0, 0, fun _ => 0, fun i => if i = 0 then
        some (TransformerBlock.allocate_inference_cache 1 1 1 2 (fun _ _ _ _ _ => 0)) else none⟩
      0).1.key_value_memory_dict 0).map (fun cu => cu.1.data (0 + 0) (0 + 0) 1 0 0) = some 9 ∧
    ((_update_kv_cache (fun _ _ _ _ => 7) (fun _ _ _ _ => 9) 1 1
      ⟨0, 0, fun _ => 0, fun i => if i = 0 then
        some (TransformerBlock.allocate_inference_cache 1 1 1 2 (fun _ _ _ _ _ => 0)) else none⟩
      0).2).map (fun w => w.data 0 (0 + 0) 0 0 0) = some 7 ∧
    ((_update_kv_cache (fun _ _ _ _ => 7) (fun _ _ _ _ => 9) 1 1
      ⟨0, 0, fun _ => 0, fun i => if i = 0 then
        some (TransformerBlock.allocate_inference_cache 1 1 1 2 (fun _ _ _ _ _ => 0)) else none⟩
      0).2).map (fun w => w.data 0 (0 + 0) 1 0 0) = some 9 := by
  have h := update_kv_cache_write_and_prefix_return
    (fun _ _ _ _ => 7) (fun _ _ _ _ => 9) 1 1
    ⟨0, 0, fun _ => 0, fun i => if i = 0 then
      some (TransformerBlock.allocate_inference_cache 1 1 1 2 (fun _ _ _ _ _ => 0)) else none⟩
    0 1 1 1 2 (fun _ _ _ _ _ => 0) rfl (by decide) (by decide)
  exact ⟨h.2.1, h.2.2.1,
    (h.1 0 0 0 0 (by decide) (by decide)).1, (h.1 0 0 0 0 (by decide) (by decide)).2,
    (h.2.2.2.2 0 0 0 0 (by decide) (by decide)).1, (h.2.2.2.2 0 0 0 0 (by decide) (by decide)).2⟩

/-- C3: the cache update fails (its assertions fire) exactly when the layer
index has no allocated cache, or the batch window `batch_size_offset + B`
exceeds the cache's batch capacity, or the sequence window
`seqlen_offset + n` exceeds its sequence capacity; and on failure the whole
inference state — in particular the cache buffer — is returned unmodified,
since all assertions precede both writes. -/
theorem update_kv_cache_failure_iff
    (k v : ℕ → ℕ → ℕ → ℕ → α) (B n : ℕ) (params : InferenceParams α) (l : ℕ) :
    ((_update_kv_cache k v B n params l).2 = none ↔
      params.key_value_memory_dict l = none ∨
      (∃ cache u, params.key_value_memory_dict l = some (cache, u) ∧
        (cache.batchSize < params.batch_size_offset + B ∨
         cache.maxSeqlen < params.seqlen_offset + n))) ∧
    ((_update_kv_cache k v B n params l).2 = none →
      (_update_kv_cache k v B n params l).1 = params) := by
  unfold _update_kv_cache
  cases hd : params.key_value_memory_dict l with
  | none => simp
  | some cu =>
    obtain ⟨cache, u⟩ := cu
    dsimp only
    by_cases hcap : params.batch_size_offset + B ≤ cache.batchSize ∧
        params.seqlen_offset + n ≤ cache.maxSeqlen
    · rw [if_pos hcap]
      refine ⟨⟨fun h => Option.noConfusion h, fun h => ?_⟩, fun h => Option.noConfusion h⟩
      rcases h with h | ⟨cache', u', hcu, hover⟩
      · exact Option.noConfusion h
      · have hp := Option.some.inj hcu
        injection hp with hc hu
        subst hc
        rcases hover with h | h <;> omega
    · rw [if_neg hcap]
      exact ⟨⟨fun _ => Or.inr ⟨cache, u, rfl, by omega⟩, fun _ => rfl⟩, fun _ => rfl⟩

/-- Witness for C3's failure direction at a concrete input: a sequence-capacity
violation (`seqlen_offset + 2 > maxSeqlen = 1`) yields `none` and leaves the
state (hence the cache buffer) unmodified. -/
theorem update_kv_cache_failure_iff_witness :
    (_update_kv_cache (fun _ _ _ _ => 3) (fun _ _ _ _ => 4) 1 2
      ⟨0, 0, fun _ => 0, fun i => if i = 0 then
        some (TransformerBlock.allocate_inference_cache 1 1 1 1 (fun _ _ _ _ _ => 0)) else none⟩ 0).2 = none ∧
    (_update_kv_cache (fun _ _ _ _ => 3) (fun _ _ _ _ => 4) 1 2
      ⟨0, 0, fun _ => 0, fun i => if i = 0 then
        some (TransformerBlock.allocate_inference_cache 1 1 1 1 (fun _ _ _ _ _ => 0)) else none⟩ 0).1 =
      ⟨0, 0, fun _ => 0, fun i => if i = 0 then
        some (TransformerBlock.allocate_inference_cache 1 1 1 1 (fun _ _ _ _ _ => 0)) else none⟩ := by
  have h := update_kv_cache_failure_iff (α := ℕ)
    (fun _ _ _ _ => 3) (fun _ _ _ _ => 4) 1 2
    ⟨0, 0, fun _ => 0, fun i => if i = 0 then
      some (TransformerBlock.allocate_inference_cache 1 1 1 1 (fun _ _ _ _ _ => 0)) else none⟩ 0
  have hnone := h.1.mpr (Or.inr ⟨⟨1, 1, 1, 1, fun _ _ _ _ _ => 0⟩, (), rfl, Or.inr (by decide)⟩)
  exact ⟨hnone, h.2 hnone⟩

/-- One incremental write to a layer's cache: a key chunk and a value chunk
(functions of `(batch, position-in-chunk, head, dim)`) together with the
chunk's sequence length. -/
structure Chunk (α : Type) where
  k : ℕ → ℕ → ℕ → ℕ → α
  v : ℕ → ℕ → ℕ → ℕ → α
  len : ℕ

/-- Cumulative sequence length of the first `j` chunks. -/
def cumLen : List (Chunk α) → ℕ → ℕ
  | _, 0 => 0
  | [], _ + 1 => 0
  | ch :: rest, j + 1 => ch.len + cumLen rest j

/-- Total sequence length of a list of chunks. -/
def totalLen (chunks : List (Chunk α)) : ℕ :=
  (chunks.map Chunk.len).sum

/-- The element that the sequence of incremental writes stores at relative
batch `b`, absolute sequence position `t`, axis-2 index `c`, head `h`,
dim `d`; `dflt` is returned beyond the written range. -/
def storedVal : List (Chunk α) → α → ℕ → ℕ → ℕ → ℕ → ℕ → α
  | [], dflt, _, _, _, _, _ => dflt
  | ch :: rest, dflt, b, t, c, h, d =>
    if t < ch.len then (if c = 0 then ch.k b t h d else ch.v b t h d)
    else storedVal rest dflt b (t - ch.len) c h d

/-- The driving loop's protocol for a sequence of incremental writes to one
layer: each write calls `_update_kv_cache`, then the driver advances
`seqlen_offset` by the chunk's length.  Returns the final state and the list
of prefix views returned by the writes, or `none` if some write failed. -/
def writeChunks (B : ℕ) : List (Chunk α) → InferenceParams α → ℕ →
    Option (InferenceParams α × List (KVView α))
  | [], params, _ => some (params, [])
  | ch :: rest, params, l =>
    match _update_kv_cache ch.k ch.v B ch.len params l with
    | (_, none) => none
    | (params1, some view) =>
      match writeChunks B rest { params1 with seqlen_offset := params1.seqlen_offset + ch.len } l with
      | none => none
      | some (params2, views) => some (params2, view :: views)

theorem totalLen_cons (ch : Chunk α) (rest : List (Chunk α)) :
    totalLen (ch :: rest) = ch.len + totalLen rest := by
  simp [totalLen]

theorem cumLen_le_succ (chunks : List (Chunk α)) (j : ℕ) :
    cumLen chunks j ≤ cumLen chunks (j + 1) := by
  induction chunks generalizing j with
  | nil => cases j <;> simp [cumLen]
  | cons ch rest ih =>
    cases j with
    | zero => simp [cumLen]
    | succ j => simpa [cumLen] using ih j

theorem writeChunks_cons_of_step {B : ℕ} {ch : Chunk α} {rest : List (Chunk α)}
    {params params1 params2 : InferenceParams α} {l : ℕ} {view : KVView α}
    {views : List (KVView α)}
    (h1 : _update_kv_cache ch.k ch.v B ch.len params l = (params1, some view))
    (h2 : writeChunks B rest { params1 with seqlen_offset := params1.seqlen_offset + ch.len } l
        = some (params2, views)) :
    writeChunks B (ch :: rest) params l = some (params2, view :: views) := by
  simp only [writeChunks]
  rw [h1]
  dsimp only
  rw [h2]

/-- Key invariant of the incremental-write protocol: starting from sequence
offset `o`, every returned prefix has length `o` plus the cumulative chunk
length, holds the pre-existing cache contents below `o`, and holds the chunk
data written so far at `[o, ...)`. -/
theorem writeChunks_spec (B : ℕ) (chunks : List (Chunk α)) :
    ∀ (params : InferenceParams α) (l : ℕ) (cache : KVCacheBuf α) (u : Unit),
    params.key_value_memory_dict l = some (cache, u) →
    params.batch_size_offset + B ≤ cache.batchSize →
    params.seqlen_offset + totalLen chunks ≤ cache.maxSeqlen →
    ∃ params2 views, writeChunks B chunks params l = some (params2, views) ∧
      views.length = chunks.length ∧
      ∀ j view, views.get? j = some view →
        view.seqLen = params.seqlen_offset + cumLen chunks (j + 1) ∧
        ∀ (dflt : α) b s c h d, b < B → c < 2 →
          s < params.seqlen_offset + cumLen chunks (j + 1) →
          view.data b s c h d =
            if s < params.seqlen_offset then
              cache.data (params.batch_size_offset + b) s c h d
            else storedVal chunks dflt b (s - params.seqlen_offset) c h d := by
  induction chunks with
  | nil =>
    intro params l cache u hdict hb hs
    exact ⟨params, [], rfl, rfl, fun j view hj => by simp at hj⟩
  | cons ch rest ih =>
    intro params l cache u hdict hb hs
    rw [totalLen_cons] at hs
    have hstep : params.seqlen_offset + ch.len ≤ cache.maxSeqlen := by omega
    have hupd : _update_kv_cache ch.k ch.v B ch.len params l =
        ({ params with key_value_memory_dict := fun i =>
            if i = l then some ({ cache with data := writeWindow cache.data ch.k ch.v params.batch_size_offset (params.batch_size_offset + B) params.seqlen_offset (params.seqlen_offset + ch.len) }, ())
            else params.key_value_memory_dict i },
         some ⟨B, params.seqlen_offset + ch.len, cache.numHeadsKV, cache.headDim,
           fun b s c h d => writeWindow cache.data ch.k ch.v params.batch_size_offset (params.batch_size_offset + B) params.seqlen_offset (params.seqlen_offset + ch.len) (params.batch_size_offset + b) s c h d⟩) := by
      unfold _update_kv_cache
      rw [hdict]
      dsimp only
      rw [if_pos ⟨hb, hstep⟩]
    obtain ⟨params2, views, hw, hlen, hviews⟩ :=
      ih { { params with key_value_memory_dict := fun i =>
              if i = l then some ({ cache with data := writeWindow cache.data ch.k ch.v params.batch_size_offset (params.batch_size_offset + B) params.seqlen_offset (params.seqlen_offset + ch.len) }, ())
              else params.key_value_memory_dict i } with
            seqlen_offset := params.seqlen_offset + ch.len }
        l
        { cache with data := writeWindow cache.data ch.k ch.v params.batch_size_offset (params.batch_size_offset + B) params.seqlen_offset (params.seqlen_offset + ch.len) }
        ()
        (by simp)
        (by simpa using hb)
        (by simpa using (by omega : params.seqlen_offset + ch.len + totalLen rest ≤ cache.maxSeqlen))
    refine ⟨params2, _ :: views, writeChunks_cons_of_step hupd ?_, by simpa using hlen, ?_⟩
    · exact hw
    · intro j view hj
      cases j with
      | zero =>
        simp only [List.get?] at hj
        injection hj with hj
        subst hj
        constructor
        · simp [cumLen]
        · intro dflt b s c h d hbB hc2 hslt
          simp only [cumLen] at hslt ⊢
          by_cases hso : s < params.seqlen_offset
          · rw [writeWindow_old (by omega), if_pos hso]
          · rw [if_neg hso]
            have hsw : s < params.seqlen_offset + ch.len := by omega
            have ht : s - params.seqlen_offset < ch.len := by omega
            rcases (by omega : c = 0 ∨ c = 1) with hc | hc <;> subst hc
            · rw [writeWindow_key (by omega) (by omega) (by omega) (by omega)]
              simp [storedVal, ht, Nat.add_sub_cancel_left]
            · rw [writeWindow_value (by omega) (by omega) (by omega) (by omega)]
              simp [storedVal, ht, Nat.add_sub_cancel_left]
      | succ j =>
        simp only [List.get?] at hj
        obtain ⟨hsl, hdata⟩ := hviews j view hj
        constructor
        · simp only [cumLen]
          simp only at hsl
          omega
        · intro dflt b s c h d hbB hc2 hslt
          simp only [cumLen] at hslt ⊢
          have hslt' : s < params.seqlen_offset + ch.len + cumLen rest (j + 1) := by omega
          have := hdata dflt b s c h d hbB hc2 (by simpa using hslt')
          simp only at this
          rw [this]
          by_cases hso : s < params.seqlen_offset
          · rw [if_pos (by omega : s < params.seqlen_offset + ch.len), if_pos hso]
            exact writeWindow_old (by omega)
          · rw [if_neg hso]
            by_cases hsw : s < params.seqlen_offset + ch.len
            · rw [if_pos hsw]
              have ht : s - params.seqlen_offset < ch.len := by omega
              rcases (by omega : c = 0 ∨ c = 1) with hc | hc <;> subst hc
              · rw [writeWindow_key (by omega) (by omega) (by omega) (by omega)]
                simp [storedVal, ht, Nat.add_sub_cancel_left]
              · rw [writeWindow_value (by omega) (by omega) (by omega) (by omega)]
                simp [storedVal, ht, Nat.add_sub_cancel_left]
            · rw [if_neg hsw]
              simp only [storedVal]
              rw [if_neg (by omega : ¬(s - params.seqlen_offset < ch.len))]
              congr 1
              omega

/-- C2: for a sequence of incremental writes starting at sequence offset 0 with
cumulative offsets and total length within capacity, every write succeeds, the
prefix returned by the j-th write has sequence length equal to the cumulative
offset after that write, and its entries at positions strictly before the
offset at which the j-th write began are exactly the values stored there by the
earlier writes. -/
theorem incremental_writes_prefix_growth (B : ℕ) (chunks : List (Chunk α))
    (params : InferenceParams α) (l : ℕ) (cache : KVCacheBuf α) (u : Unit)
    (hdict : params.key_value_memory_dict l = some (cache, u))
    (hzero : params.seqlen_offset = 0)
    (hb : params.batch_size_offset + B ≤ cache.batchSize)
    (hS : totalLen chunks ≤ cache.maxSeqlen) :
    ∃ params2 views, writeChunks B chunks params l = some (params2, views) ∧
      views.length = chunks.length ∧
      ∀ j view, views.get? j = some view →
        view.seqLen = cumLen chunks (j + 1) ∧
        ∀ (dflt : α) b s c h d, b < B → c < 2 → s < cumLen chunks j →
          view.data b s c h d = storedVal chunks dflt b s c h d := by
  obtain ⟨params2, views, hw, hlen, hviews⟩ :=
    writeChunks_spec B chunks params l cache u hdict hb (by omega)
  refine ⟨params2, views, hw, hlen, ?_⟩
  intro j view hj
  obtain ⟨hsl, hdata⟩ := hviews j view hj
  refine ⟨by omega, ?_⟩
  intro dflt b s c h d hbB hc2 hslt
  have hmono := cumLen_le_succ chunks j
  have := hdata dflt b s c h d hbB hc2 (by omega)
  rw [this, if_neg (by omega)]
  congr 1
  omega

/-- Witness for C2 at a concrete input: two writes of one position each into a
cache of sequence capacity 2 over `ℕ` succeed. -/
theorem incremental_writes_prefix_growth_witness :
    (writeChunks 1
      [⟨fun _ _ _ _ => 1, fun _ _ _ _ => 2, 1⟩, ⟨fun _ _ _ _ => 3, fun _ _ _ _ => 4, 1⟩]
      ⟨0, 0, fun _ => 0, fun i => if i = 0 then
        some (TransformerBlock.allocate_inference_cache 1 1 1 2 (fun _ _ _ _ _ => 0)) else none⟩
      0).isSome = true := by
  obtain ⟨p2, vs, hw, -, -⟩ := incremental_writes_prefix_growth 1
    [⟨fun _ _ _ _ => 1, fun _ _ _ _ => 2, 1⟩, ⟨fun _ _ _ _ => 3, fun _ _ _ _ => 4, 1⟩]
    ⟨0, 0, fun _ => 0, fun i => if i = 0 then
      some (TransformerBlock.allocate_inference_cache 1 1 1 2 (fun _ _ _ _ _ => 0)) else none⟩
    0 ⟨1, 2, 1, 1, fun _ _ _ _ _ => 0⟩ () rfl rfl (by decide) (by decide)
  rw [hw]
  rfl

/-- A `(batch, seq, heads, head_dim)` tensor tagged with its dtype.  Dtypes
are abstract codes; element values are exact reals, so the precision casts
performed by `astype` are value-identities here while the dtype tag tracks the
code's `astype` calls. -/
structure T4 where
  dtype : ℕ
  data : ℕ → ℕ → ℕ → ℕ → ℝ

/-- Rotary table together with its shape `(seqLen, halfDim, 2)`. -/
structure FreqTable where
  seqLen : ℕ
  halfDim : ℕ
  data : ℕ → ℕ → ℕ → ℝ

/-- Rotary table builder `precompute_freqs_cis(seq_len, n_elem, base)`: inverse frequencies are
`1 / base ** (arange(0, n_elem, 2)[: n_elem // 2] / n_elem)` (element `i` of
the sliced arange is `2 * i`), angles are the outer product with
`t = arange(seq_len)`, and `mx.polar(ones, angles)` stacked as
`[real, imag]` stores `(cos angle, sin angle)` in the last axis. -/
noncomputable def precompute_freqs_cis (seq_len n_elem : ℕ) (base : ℝ) : FreqTable where
  seqLen := seq_len
  halfDim := n_elem / 2
  data := fun p i c =>
    let freq : ℝ := 1 / base ^ (((2 * i : ℕ) : ℝ) / (n_elem : ℝ))
    let angle : ℝ := (p : ℝ) * freq
    if c = 0 then Real.cos angle else Real.sin angle

/-- The reshape `freqs_cis.reshape(-1, seq, 1, d/2, 2)` inserts a size-1 head
axis, which then broadcasts the same `(cos, sin)` factors to every head. -/
def reshapeBroadcastFreqs (freqs_cis : ℕ → ℕ → ℕ → ℕ → ℝ) :
    ℕ → ℕ → ℕ → ℕ → ℕ → ℝ :=
  fun b s _h j c => freqs_cis b s j c

/-- Rotary applier `apply_rotary_emb(x, freqs_cis)`: reshape the last axis into `(d/2, 2)`
consecutive pairs (`xshaped b s h j c = x.data b s h (2*j+c)`), rotate each
pair by the broadcast `(cos, sin)` factors, flatten the trailing two axes back
into `d` components, and cast back to `x`'s dtype (the `astype(mx.float32)`
upcast and the final `astype(x.dtype)` are value-identities on exact reals;
the dtype tag records the final cast). -/
noncomputable def apply_rotary_emb (x : T4) (freqs_cis : ℕ → ℕ → ℕ → ℕ → ℝ) : T4 where
  dtype := x.dtype
  data := fun b s h m =>
    let xshaped : ℕ → ℕ → ℕ → ℕ → ℕ → ℝ := fun b s h j c => x.data b s h (2 * j + c)
    let fr := reshapeBroadcastFreqs freqs_cis
    let x_out2 : ℕ → ℕ → ℕ → ℕ → ℕ → ℝ := fun b s h j c =>
      if c = 0 then xshaped b s h j 0 * fr b s h j 0 - xshaped b s h j 1 * fr b s h j 1
      else xshaped b s h j 1 * fr b s h j 0 + xshaped b s h j 0 * fr b s h j 1
    x_out2 b s h (m / 2) (m % 2)

/-- C6: the rotary table builder is a pure function returning a table of shape
`(L, d/2, 2)` whose entry at position `p` and frequency index `i` is
`(cos (p·f_i), sin (p·f_i))` with `f_i = base^(-2i/d)`. -/
theorem precompute_freqs_cis_spec (L d : ℕ) (base : ℝ) (hbase : 0 < base)
    (hd : d % 2 = 0) (p i : ℕ) (hp : p < L) (hi : i < d / 2) :
    (precompute_freqs_cis L d base).seqLen = L ∧
    (precompute_freqs_cis L d base).halfDim = d / 2 ∧
    (precompute_freqs_cis L d base).data p i 0 =
      Real.cos ((p : ℝ) * base ^ (-((2 * (i : ℝ)) / (d : ℝ)))) ∧
    (precompute_freqs_cis L d base).data p i 1 =
      Real.sin ((p : ℝ) * base ^ (-((2 * (i : ℝ)) / (d : ℝ)))) := by
  refine ⟨rfl, rfl, ?_, ?_⟩
  · simp only [precompute_freqs_cis]
    norm_num
    rw [Real.rpow_neg hbase.le]
  · simp only [precompute_freqs_cis]
    norm_num
    rw [Real.rpow_neg hbase.le]

/-- Witness for C6 at a concrete input: `L = 1`, `d = 2`, `base = 2`,
entry `(0, 0)`. -/
theorem precompute_freqs_cis_spec_witness :
    (precompute_freqs_cis 1 2 2).seqLen = 1 ∧
    (precompute_freqs_cis 1 2 2).halfDim = 2 / 2 ∧
    (precompute_freqs_cis 1 2 2).data 0 0 0 =
      Real.cos (((0 : ℕ) : ℝ) * (2 : ℝ) ^ (-((2 * ((0 : ℕ) : ℝ)) / ((2 : ℕ) : ℝ)))) ∧
    (precompute_freqs_cis 1 2 2).data 0 0 1 =
      Real.sin (((0 : ℕ) : ℝ) * (2 : ℝ) ^ (-((2 * ((0 : ℕ) : ℝ)) / ((2 : ℕ) : ℝ)))) :=
  precompute_freqs_cis_spec 1 2 2 (by norm_num) (by decide) 0 0 (by decide) (by decide)

/-- C7: the rotary applier splits the last axis into `d/2` consecutive
`(a, b)` pairs, replaces the pair at frequency index `j` with
`(a·c − b·s, a·s + b·c)` where `(c, s)` are the factors at the same position
and frequency index, reassembles the pairs, and returns a tensor whose dtype
equals the input's dtype. -/
theorem apply_rotary_emb_rotates_pairs (x : T4) (freqs_cis : ℕ → ℕ → ℕ → ℕ → ℝ)
    (b s h j : ℕ) :
    (apply_rotary_emb x freqs_cis).data b s h (2 * j) =
      x.data b s h (2 * j) * freqs_cis b s j 0
        - x.data b s h (2 * j + 1) * freqs_cis b s j 1 ∧
    (apply_rotary_emb x freqs_cis).data b s h (2 * j + 1) =
      x.data b s h (2 * j) * freqs_cis b s j 1
        + x.data b s h (2 * j + 1) * freqs_cis b s j 0 ∧
    (apply_rotary_emb x freqs_cis).dtype = x.dtype := by
  have h0 : 2 * j / 2 = j := by omega
  have h1 : 2 * j % 2 = 0 := by omega
  have h2 : (2 * j + 1) / 2 = j := by omega
  have h3 : (2 * j + 1) % 2 = 1 := by omega
  refine ⟨?_, ?_, rfl⟩
  · simp only [apply_rotary_emb, reshapeBroadcastFreqs, h0, h1]
    norm_num
  · simp only [apply_rotary_emb, reshapeBroadcastFreqs, h2, h3]
    norm_num
    ring

/-- A rotary table slice built from an angle function `θ`: the `(cos θ, sin θ)`
entries the table builder produces at the chunk's positions. -/
noncomputable def cisTable (θ : ℕ → ℕ → ℕ → ℝ) : ℕ → ℕ → ℕ → ℕ → ℝ :=
  fun b s j c => if c = 0 then Real.cos (θ b s j) else Real.sin (θ b s j)

/-- C8: applying the rotary embedding with angles `θ` and then with angles
`−θ` (whose table entries are `(cos θ, −sin θ)`) returns the original vector
exactly — hence within any numeric tolerance — for every batch, position,
head, head dimension and component. -/
theorem apply_rotary_emb_roundtrip (x : T4) (θ : ℕ → ℕ → ℕ → ℝ) (b s h m : ℕ) :
    (apply_rotary_emb (apply_rotary_emb x (cisTable θ))
        (cisTable (fun b s j => -(θ b s j)))).data b s h m = x.data b s h m := by
  rcases Nat.even_or_odd m with ⟨j, hj⟩ | ⟨j, hj⟩
  · have hm : m = 2 * j := by omega
    subst hm
    have h0 : 2 * j / 2 = j := by omega
    have h1 : 2 * j % 2 = 0 := by omega
    have h2 : (2 * j + 1) / 2 = j := by omega
    have h3 : (2 * j + 1) % 2 = 1 := by omega
    simp only [apply_rotary_emb, cisTable, reshapeBroadcastFreqs, add_zero, h0, h1, h2, h3]
    norm_num [Real.cos_neg, Real.sin_neg]
    linear_combination x.data b s h (2 * j) * Real.sin_sq_add_cos_sq (θ b s j)
  · have hm : m = 2 * j + 1 := by omega
    subst hm
    have h0 : 2 * j / 2 = j := by omega
    have h1 : 2 * j % 2 = 0 := by omega
    have h2 : (2 * j + 1) / 2 = j := by omega
    have h3 : (2 * j + 1) % 2 = 1 := by omega
    simp only [apply_rotary_emb, cisTable, reshapeBroadcastFreqs, add_zero, h0, h1, h2, h3]
    norm_num [Real.cos_neg, Real.sin_neg]
    linear_combination x.data b s h (2 * j + 1) * Real.sin_sq_add_cos_sq (θ b s j)

/-- Reindexing of the head axis of a `(batch, seq, heads, head_dim)` tensor. -/
def headPermute (perm : ℕ → ℕ) (x : T4) : T4 where
  dtype := x.dtype
  data := fun b s h m => x.data b s (perm h) m

/-- C10: the broadcast table slice carries no head index, so the `(cos, sin)`
factors at a given batch element, position and pair index are identical across
all heads, and the rotary applier commutes with any reindexing — in particular
any permutation — of the head axis. -/
theorem apply_rotary_emb_uniform_across_heads (freqs_cis : ℕ → ℕ → ℕ → ℕ → ℝ)
    (x : T4) (perm : ℕ → ℕ) (b s h h' j c : ℕ) :
    reshapeBroadcastFreqs freqs_cis b s h j c
      = reshapeBroadcastFreqs freqs_cis b s h' j c ∧
    apply_rotary_emb (headPermute perm x) freqs_cis
      = headPermute perm (apply_rotary_emb x freqs_cis) :=
  ⟨rfl, rfl⟩

/-- Backbone configuration fields consumed by the embedded components. -/
structure BackboneConfig where
  d_model : ℕ
  norm_epsilon : ℝ
  num_heads : ℕ
  num_heads_kv : ℕ
  attn_mlp_d_intermediate : ℕ

/-- Linear map `nn.Linear(dIn, dOut, bias=False)` applied along the last axis of a
`(batch, seq, features)` tensor: `y[b,s,r] = Σ_m W[r,m] · x[b,s,m]`. -/
noncomputable def linear3 (W : ℕ → ℕ → ℝ) (dIn : ℕ) (x : ℕ → ℕ → ℕ → ℝ) :
    ℕ → ℕ → ℕ → ℝ :=
  fun b s r => ∑ m ∈ Finset.range dIn, W r m * x b s m

/-- Weights of one attention block: the fused input projection of output width
`(num_heads + 2·num_heads_kv)·head_dim`, the output projection, and the dtype
tag of the activations. -/
structure AttentionWeights where
  in_proj : ℕ → ℕ → ℝ
  out_proj : ℕ → ℕ → ℝ
  dt : ℕ

/-- Query span of the fused projection, reshaped to
`(batch, seq, num_heads, head_dim)`. -/
noncomputable def qProj (cfg : BackboneConfig) (aw : AttentionWeights)
    (x : ℕ → ℕ → ℕ → ℝ) : ℕ → ℕ → ℕ → ℕ → ℝ :=
  fun b s h d =>
    linear3 aw.in_proj cfg.d_model x b s (h * (cfg.d_model / cfg.num_heads) + d)

/-- Key span of the fused projection (offset `q_size`), reshaped to
`(batch, seq, num_heads_kv, head_dim)`. -/
noncomputable def kProj (cfg : BackboneConfig) (aw : AttentionWeights)
    (x : ℕ → ℕ → ℕ → ℝ) : ℕ → ℕ → ℕ → ℕ → ℝ :=
  fun b s h d =>
    linear3 aw.in_proj cfg.d_model x b s
      (cfg.num_heads * (cfg.d_model / cfg.num_heads)
        + (h * (cfg.d_model / cfg.num_heads) + d))

/-- Value span of the fused projection (offset `q_size + kv_size`), reshaped
to `(batch, seq, num_heads_kv, head_dim)`. -/
noncomputable def vProj (cfg : BackboneConfig) (aw : AttentionWeights)
    (x : ℕ → ℕ → ℕ → ℝ) : ℕ → ℕ → ℕ → ℕ → ℝ :=
  fun b s h d =>
    linear3 aw.in_proj cfg.d_model x b s
      (cfg.num_heads * (cfg.d_model / cfg.num_heads)
        + cfg.num_heads_kv * (cfg.d_model / cfg.num_heads)
        + (h * (cfg.d_model / cfg.num_heads) + d))

/-- Attention primitive `F.scaled_dot_product_attention(q, k, v, is_causal, enable_gqa=True)` for
`q` of shape `(batch, Hq, L, Dh)` and `k`, `v` of shape `(batch, Hkv, S, Dh)`:
softmax over the `S` key positions of the scores scaled by `1/√Dh`, where the
causal mask zeroes the weight of key positions `j > i`, and grouped-query
broadcasting sends query head `h` to key/value head `h / grp` with
`grp = Hq / Hkv`.  This is the trusted external attention primitive, modelled
from its documented semantics. -/
noncomputable def scaled_dot_product_attention (Dh S grp : ℕ)
    (q k v : ℕ → ℕ → ℕ → ℕ → ℝ) (is_causal : Bool) : ℕ → ℕ → ℕ → ℕ → ℝ :=
  fun b h i d =>
    let kvh := h / grp
    let w : ℕ → ℝ := fun j =>
      if is_causal = true ∧ i < j then 0
      else Real.exp ((∑ e ∈ Finset.range Dh, q b h i e * k b kvh j e) / Real.sqrt (Dh : ℝ))
    (∑ j ∈ Finset.range S, w j * v b kvh j d) / (∑ j ∈ Finset.range S, w j)

/-- The `is_causal` flag the attention block passes to the primitive:
`seqlen > 1`. -/
def Attention.isCausal (seqlen : ℕ) : Bool := seqlen > 1

/-- Attention block forward pass `Attention.forward(x, inference_params, freqs_cis)` for a chunk of shape
`(batch_size, seqlen, d_model)`: fused projection split into q/k/v spans,
reshape to heads, rotary on q and k only, cache update with the rotated key
and the raw value, `kv.unbind(axis=-3)` then `transpose(1, 2)` of q/k/v,
grouped-query scaled-dot-product attention with `is_causal = seqlen > 1`,
transpose back, flatten heads and output projection.  A failed cache update
(assertion) propagates as `none`. -/
noncomputable def Attention.forward (cfg : BackboneConfig) (aw : AttentionWeights)
    (layer_idx : ℕ) (x : ℕ → ℕ → ℕ → ℝ) (batch_size seqlen : ℕ)
    (inference_params : InferenceParams ℝ) (freqs_cis : ℕ → ℕ → ℕ → ℕ → ℝ) :
    Option ((ℕ → ℕ → ℕ → ℝ) × InferenceParams ℝ) :=
  let head_dim := cfg.d_model / cfg.num_heads
  let q_size := cfg.num_heads * head_dim
  let q := (apply_rotary_emb ⟨aw.dt, qProj cfg aw x⟩ freqs_cis).data
  let k := (apply_rotary_emb ⟨aw.dt, kProj cfg aw x⟩ freqs_cis).data
  let v := vProj cfg aw x
  match _update_kv_cache k v batch_size seqlen inference_params layer_idx with
  | (_, none) => none
  | (params1, some kv) =>
    let kT : ℕ → ℕ → ℕ → ℕ → ℝ := fun b h j e => kv.data b j 0 h e
    let vT : ℕ → ℕ → ℕ → ℕ → ℝ := fun b h j e => kv.data b j 1 h e
    let qT : ℕ → ℕ → ℕ → ℕ → ℝ := fun b h i e => q b i h e
    let y := scaled_dot_product_attention head_dim kv.seqLen
      (cfg.num_heads / cfg.num_heads_kv) qT kT vT (Attention.isCausal seqlen)
    let yflat : ℕ → ℕ → ℕ → ℝ := fun b s r => y b (r / head_dim) s (r % head_dim)
    some (linear3 aw.out_proj q_size yflat, params1)

theorem linear3_congr_at (W : ℕ → ℕ → ℝ) (dIn : ℕ) (x x' : ℕ → ℕ → ℕ → ℝ)
    (b s : ℕ) (hx : ∀ m, x b s m = x' b s m) (r : ℕ) :
    linear3 W dIn x b s r = linear3 W dIn x' b s r := by
  unfold linear3
  exact Finset.sum_congr rfl fun m _ => by rw [hx]

theorem apply_rotary_emb_congr_at (x x' : T4) (freqs_cis : ℕ → ℕ → ℕ → ℕ → ℝ)
    (b s h : ℕ) (hx : ∀ m, x.data b s h m = x'.data b s h m) (e : ℕ) :
    (apply_rotary_emb x freqs_cis).data b s h e
      = (apply_rotary_emb x' freqs_cis).data b s h e := by
  simp only [apply_rotary_emb]
  rw [hx, hx]

/-- With the causal mask on, the output at query position `i` depends on the
query row at `i` and on the key/value rows at positions `j ≤ i` only. -/
theorem sdpa_causal_congr (Dh S grp : ℕ) (q k v q' k' v' : ℕ → ℕ → ℕ → ℕ → ℝ)
    (b h i d : ℕ)
    (hq : ∀ e, q b h i e = q' b h i e)
    (hk : ∀ j e, j ≤ i → k b (h / grp) j e = k' b (h / grp) j e)
    (hv : ∀ j, j ≤ i → v b (h / grp) j d = v' b (h / grp) j d) :
    scaled_dot_product_attention Dh S grp q k v true b h i d
      = scaled_dot_product_attention Dh S grp q' k' v' true b h i d := by
  unfold scaled_dot_product_attention
  dsimp only
  congr 1
  · apply Finset.sum_congr rfl
    intro j _
    by_cases hij : i < j
    · simp [hij]
    · have hji : j ≤ i := by omega
      have hsc : (∑ e ∈ Finset.range Dh, q b h i e * k b (h / grp) j e)
          = ∑ e ∈ Finset.range Dh, q' b h i e * k' b (h / grp) j e :=
        Finset.sum_congr rfl fun e _ => by rw [hq e, hk j e hji]
      simp [hij, hsc, hv j hji]
  · apply Finset.sum_congr rfl
    intro j _
    by_cases hij : i < j
    · simp [hij]
    · have hji : j ≤ i := by omega
      have hsc : (∑ e ∈ Finset.range Dh, q b h i e * k b (h / grp) j e)
          = ∑ e ∈ Finset.range Dh, q' b h i e * k' b (h / grp) j e :=
        Finset.sum_congr rfl fun e _ => by rw [hq e, hk j e hji]
      simp [hij, hsc]

/-- On an in-capacity call, `_update_kv_cache` evaluates to the pair of the
state with the window written and the prefix view. -/
theorem update_kv_cache_success (k v : ℕ → ℕ → ℕ → ℕ → α) (B n : ℕ)
    (params : InferenceParams α) (l : ℕ) (cache : KVCacheBuf α) (u : Unit)
    (hdict : params.key_value_memory_dict l = some (cache, u))
    (hb : params.batch_size_offset + B ≤ cache.batchSize)
    (hs : params.seqlen_offset + n ≤ cache.maxSeqlen) :
    _update_kv_cache k v B n params l =
      ({ params with key_value_memory_dict := fun i =>
          if i = l then some ({ cache with data := writeWindow cache.data k v params.batch_size_offset (params.batch_size_offset + B) params.seqlen_offset (params.seqlen_offset + n) }, ())
          else params.key_value_memory_dict i },
       some ⟨B, params.seqlen_offset + n, cache.numHeadsKV, cache.headDim,
         fun b s c h d => writeWindow cache.data k v params.batch_size_offset (params.batch_size_offset + B) params.seqlen_offset (params.seqlen_offset + n) (params.batch_size_offset + b) s c h d⟩) := by
  unfold _update_kv_cache
  rw [hdict]
  dsimp only
  rw [if_pos ⟨hb, hs⟩]

/-- C9: in the attention forward pass the rotary embedding is applied, with
the same table slice, to the query and the key projections only, before the
cache update and the attention call: the cache update receives the rotated key
and the unrotated value — the post-state cache holds the rotated key
projection in axis-2 slot 0 and the raw value projection in slot 1 at the
addressed window — and the attention primitive consumes the full valid
key/value prefix of length `seqlen_offset + seqlen` read back from the
updated cache (the rotated query being the only other attention input). -/
theorem attention_rotary_qk_and_full_prefix_read
    (cfg : BackboneConfig) (aw : AttentionWeights) (l : ℕ)
    (x : ℕ → ℕ → ℕ → ℝ) (B n : ℕ) (params : InferenceParams ℝ)
    (freqs_cis : ℕ → ℕ → ℕ → ℕ → ℝ) (cache : KVCacheBuf ℝ) (u : Unit)
    (hdict : params.key_value_memory_dict l = some (cache, u))
    (hb : params.batch_size_offset + B ≤ cache.batchSize)
    (hs : params.seqlen_offset + n ≤ cache.maxSeqlen) :
    (Attention.forward cfg aw l x B n params freqs_cis).isSome = true ∧
    (∀ out params1,
      Attention.forward cfg aw l x B n params freqs_cis = some (out, params1) →
      (∀ b s h d, b < B → s < n →
        (params1.key_value_memory_dict l).map
            (fun cu => cu.1.data (params.batch_size_offset + b) (params.seqlen_offset + s) 0 h d)
          = some ((apply_rotary_emb ⟨aw.dt, kProj cfg aw x⟩ freqs_cis).data b s h d) ∧
        (params1.key_value_memory_dict l).map
            (fun cu => cu.1.data (params.batch_size_offset + b) (params.seqlen_offset + s) 1 h d)
          = some (vProj cfg aw x b s h d)) ∧
      (∀ b s m, out b s m =
        linear3 aw.out_proj (cfg.num_heads * (cfg.d_model / cfg.num_heads))
          (fun b s r =>
            scaled_dot_product_attention (cfg.d_model / cfg.num_heads)
              (params.seqlen_offset + n) (cfg.num_heads / cfg.num_heads_kv)
              (fun b h i e => (apply_rotary_emb ⟨aw.dt, qProj cfg aw x⟩ freqs_cis).data b i h e)
              (fun b h j e => writeWindow cache.data ((apply_rotary_emb ⟨aw.dt, kProj cfg aw x⟩ freqs_cis).data) (vProj cfg aw x) params.batch_size_offset (params.batch_size_offset + B) params.seqlen_offset (params.seqlen_offset + n) (params.batch_size_offset + b) j 0 h e)
              (fun b h j e => writeWindow cache.data ((apply_rotary_emb ⟨aw.dt, kProj cfg aw x⟩ freqs_cis).data) (vProj cfg aw x) params.batch_size_offset (params.batch_size_offset + B) params.seqlen_offset (params.seqlen_offset + n) (params.batch_size_offset + b) j 1 h e)
              (Attention.isCausal n) b (r / (cfg.d_model / cfg.num_heads)) s
              (r % (cfg.d_model / cfg.num_heads)))
          b s m)) := by
  have hupd := update_kv_cache_success
    ((apply_rotary_emb ⟨aw.dt, kProj cfg aw x⟩ freqs_cis).data) (vProj cfg aw x)
    B n params l cache u hdict hb hs
  constructor
  · simp only [Attention.forward]
    rw [hupd]
    rfl
  · intro out params1 hf
    simp only [Attention.forward] at hf
    rw [hupd] at hf
    dsimp only at hf
    have hp := Option.some.inj hf
    have ho := congrArg Prod.fst hp
    have hpar := congrArg Prod.snd hp
    dsimp only at ho hpar
    constructor
    · intro b s h d hbB hsn
      rw [← hpar]
      dsimp only
      rw [if_pos rfl]
      simp only [Option.map_some']
      constructor
      · rw [writeWindow_key (by omega) (by omega) (by omega) (by omega)]
        simp
      · rw [writeWindow_value (by omega) (by omega) (by omega) (by omega)]
        simp
    · intro b s m
      rw [← ho]

/-- Witness for C9 at a concrete input: a minimal configuration
(`d_model = 1`, one head, one kv head), one-token chunk, capacity-1 cache —
the attention forward pass succeeds. -/
theorem attention_rotary_qk_and_full_prefix_read_witness :
    (Attention.forward ⟨1, 0, 1, 1, 1⟩ ⟨fun _ _ => 0, fun _ _ => 0, 0⟩ 0
      (fun _ _ _ => 0) 1 1
      ⟨0, 0, fun _ => 0, fun i => if i = 0 then
        some (⟨1, 1, 1, 1, fun _ _ _ _ _ => 0⟩, ()) else none⟩
      (fun _ _ _ _ => 0)).isSome = true :=
  (attention_rotary_qk_and_full_prefix_read ⟨1, 0, 1, 1, 1⟩
    ⟨fun _ _ => 0, fun _ _ => 0, 0⟩ 0 (fun _ _ _ => 0) 1 1
    ⟨0, 0, fun _ => 0, fun i => if i = 0 then
      some (⟨1, 1, 1, 1, fun _ _ _ _ _ => 0⟩, ()) else none⟩
    (fun _ _ _ _ => 0) ⟨1, 1, 1, 1, fun _ _ _ _ _ => 0⟩ () rfl
    (by decide) (by decide)).1

/-- C4: the attention block invokes the attention primitive with causal
masking enabled exactly when the chunk length exceeds 1 — for a chunk of
length 1 the flag is `false`, so no causal mask is applied — and,
consequently, for a prefill chunk (`seqlen_offset = 0`, chunk length > 1) the
output at any position `i` is invariant under perturbation of the block's
inputs at positions greater than `i`. -/
theorem attention_causal_iff_and_prefill_invariance
    (cfg : BackboneConfig) (aw : AttentionWeights) (l : ℕ)
    (x x' : ℕ → ℕ → ℕ → ℝ) (B n i : ℕ) (params : InferenceParams ℝ)
    (freqs_cis : ℕ → ℕ → ℕ → ℕ → ℝ) (cache : KVCacheBuf ℝ) (u : Unit)
    (hdict : params.key_value_memory_dict l = some (cache, u))
    (hb : params.batch_size_offset + B ≤ cache.batchSize)
    (hs0 : params.seqlen_offset = 0)
    (hcap : n ≤ cache.maxSeqlen)
    (hn : 1 < n)
    (hagree : ∀ b s m, s ≤ i → x b s m = x' b s m) :
    (∀ m, Attention.isCausal m = true ↔ 1 < m) ∧
    Attention.isCausal 1 = false ∧
    (Attention.forward cfg aw l x B n params freqs_cis).isSome = true ∧
    (Attention.forward cfg aw l x' B n params freqs_cis).isSome = true ∧
    (∀ out params1 out' params1',
      Attention.forward cfg aw l x B n params freqs_cis = some (out, params1) →
      Attention.forward cfg aw l x' B n params freqs_cis = some (out', params1') →
      ∀ b m, out b i m = out' b i m) := by
  have hseq : params.seqlen_offset + n ≤ cache.maxSeqlen := by omega
  have hupd := update_kv_cache_success
    ((apply_rotary_emb ⟨aw.dt, kProj cfg aw x⟩ freqs_cis).data) (vProj cfg aw x)
    B n params l cache u hdict hb hseq
  have hupd2 := update_kv_cache_success
    ((apply_rotary_emb ⟨aw.dt, kProj cfg aw x'⟩ freqs_cis).data) (vProj cfg aw x')
    B n params l cache u hdict hb hseq
  refine ⟨fun m => by simp [Attention.isCausal], rfl, ?_, ?_, ?_⟩
  · simp only [Attention.forward]
    rw [hupd]
    rfl
  · simp only [Attention.forward]
    rw [hupd2]
    rfl
  · intro out params1 out' params1' hf hf2
    simp only [Attention.forward] at hf hf2
    rw [hupd] at hf
    rw [hupd2] at hf2
    dsimp only at hf hf2
    have ho := congrArg Prod.fst (Option.some.inj hf)
    have ho2 := congrArg Prod.fst (Option.some.inj hf2)
    dsimp only at ho ho2
    intro b m
    rw [← ho, ← ho2]
    have hcaus : Attention.isCausal n = true := by
      simp only [Attention.isCausal]
      simpa using hn
    rw [hcaus]
    apply linear3_congr_at
    intro r
    apply sdpa_causal_congr
    · intro e
      apply apply_rotary_emb_congr_at
      intro mm
      dsimp only [qProj]
      apply linear3_congr_at
      intro m2
      exact hagree _ _ _ (le_refl i)
    · intro j e hji
      by_cases hwin : params.batch_size_offset ≤ params.batch_size_offset + b ∧
          params.batch_size_offset + b < params.batch_size_offset + B ∧
          params.seqlen_offset ≤ j ∧ j < params.seqlen_offset + n
      · obtain ⟨h1, h2, h3, h4⟩ := hwin
        rw [writeWindow_key h1 h2 h3 h4, writeWindow_key h1 h2 h3 h4]
        apply apply_rotary_emb_congr_at
        intro mm
        dsimp only [kProj]
        apply linear3_congr_at
        intro m2
        exact hagree _ _ _ (by omega)
      · rw [writeWindow_old hwin, writeWindow_old hwin]
    · intro j hji
      by_cases hwin : params.batch_size_offset ≤ params.batch_size_offset + b ∧
          params.batch_size_offset + b < params.batch_size_offset + B ∧
          params.seqlen_offset ≤ j ∧ j < params.seqlen_offset + n
      · obtain ⟨h1, h2, h3, h4⟩ := hwin
        rw [writeWindow_value h1 h2 h3 h4, writeWindow_value h1 h2 h3 h4]
        dsimp only [vProj]
        apply linear3_congr_at
        intro m2
        exact hagree _ _ _ (by omega)
      · rw [writeWindow_old hwin, writeWindow_old hwin]

/-- Witness for C4 at a concrete input: minimal configuration, prefill chunk
of length 2, `x'` perturbing `x` only at positions greater than 0 — the flag
facts hold and both forward passes succeed. -/
theorem attention_causal_iff_and_prefill_invariance_witness :
    Attention.isCausal 1 = false ∧
    Attention.isCausal 2 = true ∧
    (Attention.forward ⟨1, 0, 1, 1, 1⟩ ⟨fun _ _ => 0, fun _ _ => 0, 0⟩ 0
      (fun _ _ _ => 0) 1 2
      ⟨0, 0, fun _ => 0, fun i => if i = 0 then
        some (⟨1, 2, 1, 1, fun _ _ _ _ _ => 0⟩, ()) else none⟩
      (fun _ _ _ _ => 0)).isSome = true ∧
    (Attention.forward ⟨1, 0, 1, 1, 1⟩ ⟨fun _ _ => 0, fun _ _ => 0, 0⟩ 0
      (fun _ s _ => if s ≤ 0 then 0 else 1) 1 2
      ⟨0, 0, fun _ => 0, fun i => if i = 0 then
        some (⟨1, 2, 1, 1, fun _ _ _ _ _ => 0⟩, ()) else none⟩
      (fun _ _ _ _ => 0)).isSome = true := by
  have h := attention_causal_iff_and_prefill_invariance ⟨1, 0, 1, 1, 1⟩
    ⟨fun _ _ => 0, fun _ _ => 0, 0⟩ 0
    (fun _ _ _ => 0) (fun _ s _ => if s ≤ 0 then 0 else 1) 1 2 0
    ⟨0, 0, fun _ => 0, fun i => if i = 0 then
      some (⟨1, 2, 1, 1, fun _ _ _ _ _ => 0⟩, ()) else none⟩
    (fun _ _ _ _ => 0) ⟨1, 2, 1, 1, fun _ _ _ _ _ => 0⟩ () rfl
    (by decide) rfl (by decide) (by decide)
    (fun b s m hs => by simp [hs])
  exact ⟨h.2.1, (h.1 2).mpr (by norm_num), h.2.2.1, h.2.2.2.1⟩

/-- Affine parameters of `nn.LayerNorm(d_model, eps)`. -/
structure LayerNormWeights where
  eps : ℝ
  weight : ℕ → ℝ
  bias : ℕ → ℝ

/-- Layer normalization `nn.LayerNorm` over the last axis of a `(batch, seq, d_model)` tensor:
normalize by mean and variance over the feature axis, then apply the affine
weight and bias. -/
noncomputable def layerNorm (dm : ℕ) (ln : LayerNormWeights)
    (x : ℕ → ℕ → ℕ → ℝ) : ℕ → ℕ → ℕ → ℝ :=
  fun b s m =>
    let mean := (∑ r ∈ Finset.range dm, x b s r) / (dm : ℝ)
    let variance := (∑ r ∈ Finset.range dm, (x b s r - mean) ^ 2) / (dm : ℝ)
    (x b s m - mean) / Real.sqrt (variance + ln.eps) * ln.weight m + ln.bias m

/-- Sigmoid-weighted linear unit `F.silu(t) = t · sigmoid(t)`. -/
noncomputable def silu (t : ℝ) : ℝ := t / (1 + Real.exp (-t))

/-- Weights of the gated MLP. -/
structure FeedForwardWeights where
  fc1 : ℕ → ℕ → ℝ
  fc2 : ℕ → ℕ → ℝ

/-- Gated MLP `FeedForward.forward`: project to `2·intermediate`, split into
`(y, gate)` halves along the last axis, compute `y · silu(gate)` elementwise,
project back to `d_model`. -/
noncomputable def FeedForward.forward (cfg : BackboneConfig)
    (fw : FeedForwardWeights) (x : ℕ → ℕ → ℕ → ℝ) : ℕ → ℕ → ℕ → ℝ :=
  let h1 := linear3 fw.fc1 cfg.d_model x
  linear3 fw.fc2 cfg.attn_mlp_d_intermediate
    (fun b s r => h1 b s r * silu (h1 b s (cfg.attn_mlp_d_intermediate + r)))

/-- Weights of one transformer block, with its layer index for cache
addressing. -/
structure BlockWeights where
  norm : LayerNormWeights
  attn : AttentionWeights
  norm2 : LayerNormWeights
  mlp : FeedForwardWeights
  layer_idx : ℕ

/-- Block forward pass `TransformerBlock.forward`: pre-norm residual attention then pre-norm
residual MLP, threading the inference state mutated by the attention's cache
write; a failed cache write propagates as `none`. -/
noncomputable def TransformerBlock.forward (cfg : BackboneConfig)
    (blk : BlockWeights) (x : ℕ → ℕ → ℕ → ℝ) (batch_size seqlen : ℕ)
    (inference_params : InferenceParams ℝ) (freqs_cis : ℕ → ℕ → ℕ → ℕ → ℝ) :
    Option ((ℕ → ℕ → ℕ → ℝ) × InferenceParams ℝ) :=
  match Attention.forward cfg blk.attn blk.layer_idx
      (layerNorm cfg.d_model blk.norm x) batch_size seqlen inference_params freqs_cis with
  | none => none
  | some (attnOut, params1) =>
    let x1 : ℕ → ℕ → ℕ → ℝ := fun b s m => x b s m + attnOut b s m
    let x2 : ℕ → ℕ → ℕ → ℝ := fun b s m =>
      x1 b s m + FeedForward.forward cfg blk.mlp (layerNorm cfg.d_model blk.norm2 x1) b s m
    some (x2, params1)

/-- The backbone's `for i, layer in enumerate(self.layers)` loop: feed the
hidden states through the blocks in order, threading the inference state. -/
noncomputable def passLayers (cfg : BackboneConfig) :
    List BlockWeights → (ℕ → ℕ → ℕ → ℝ) → ℕ → ℕ → InferenceParams ℝ →
    (ℕ → ℕ → ℕ → ℕ → ℝ) → Option ((ℕ → ℕ → ℕ → ℝ) × InferenceParams ℝ)
  | [], x, _, _, params, _ => some (x, params)
  | blk :: rest, x, batch_size, seqlen, params, freqs_cis =>
    match TransformerBlock.forward cfg blk x batch_size seqlen params freqs_cis with
    | none => none
    | some (x1, params1) => passLayers cfg rest x1 batch_size seqlen params1 freqs_cis

/-- The backbone: configuration, blocks in layer order, final normalization,
and the rotary table set by `allocate_inference_cache`
(`precompute_freqs_cis(16384, head_dim)`). -/
structure BackboneWeights where
  cfg : BackboneConfig
  layers : List BlockWeights
  norm_f : LayerNormWeights
  freqs_cis : ℕ → ℕ → ℕ → ℝ

/-- Backbone cache allocation `MLXZonosBackbone.allocate_inference_cache(batch_size, max_seqlen, dtype)`:
builds the rotary table with fixed capacity 16384 for
`head_dim = d_model // num_heads`, and collects every block's cache buffer
keyed by layer index. -/
noncomputable def MLXZonosBackbone.allocate_inference_cache (cfg : BackboneConfig)
    (n_layer batch_size max_seqlen : ℕ) (uninit : ℕ → ℕ → ℕ → ℕ → ℕ → ℝ) :
    FreqTable × (ℕ → Option (KVCacheBuf ℝ × Unit)) :=
  (precompute_freqs_cis 16384 (cfg.d_model / cfg.num_heads) 10000,
   fun i => if i < n_layer then
     some (TransformerBlock.allocate_inference_cache cfg.num_heads_kv
       (cfg.d_model / cfg.num_heads) batch_size max_seqlen uninit)
   else none)

/-- Backbone forward pass `MLXZonosBackbone.forward(hidden_states, inference_params)`:
`input_pos = mx.arange(0, seqlen) + lengths_per_sample.unsqueeze(-1)`, so
`input_pos[b][s] = s + lengths_per_sample[b]`; the rotary slice is
`self.freqs_cis[input_pos].expand(batch_size, -1, -1, -1)`; the hidden states
pass through every block in order, then the final normalization. -/
noncomputable def MLXZonosBackbone.forward (bw : BackboneWeights)
    (hidden_states : ℕ → ℕ → ℕ → ℝ) (batch_size seqlen : ℕ)
    (inference_params : InferenceParams ℝ) : Option (ℕ → ℕ → ℕ → ℝ) :=
  let input_pos : ℕ → ℕ → ℕ := fun b s => s + inference_params.lengths_per_sample b
  let freqs_cis : ℕ → ℕ → ℕ → ℕ → ℝ := fun b s j c => bw.freqs_cis (input_pos b s) j c
  match passLayers bw.cfg bw.layers hidden_states batch_size seqlen
      inference_params freqs_cis with
  | none => none
  | some (h, _) => some (layerNorm bw.cfg.d_model bw.norm_f h)

/-- C5: the backbone computes the absolute position of chunk element `s` of
batch element `b` as `arange(seqlen)[s] + lengths_per_sample[b]`, gathers the
rotary table slice at exactly those positions, feeds the hidden states through
the transformer blocks in layer order (threading the per-layer cache state),
and applies the final normalization layer to the result. -/
theorem backbone_positions_layers_and_final_norm (bw : BackboneWeights)
    (hidden_states : ℕ → ℕ → ℕ → ℝ) (batch_size seqlen : ℕ)
    (inference_params : InferenceParams ℝ) :
    MLXZonosBackbone.forward bw hidden_states batch_size seqlen inference_params =
      Option.map (fun hp => layerNorm bw.cfg.d_model bw.norm_f hp.1)
        (passLayers bw.cfg bw.layers hidden_states batch_size seqlen inference_params
          (fun b s j c =>
            bw.freqs_cis (s + inference_params.lengths_per_sample b) j c)) := by
  simp only [MLXZonosBackbone.forward]
  cases passLayers bw.cfg bw.layers hidden_states batch_size seqlen inference_params
      (fun b s j c => bw.freqs_cis (s + inference_params.lengths_per_sample b) j c) with
  | none => rfl
  | some hp => rfl

end ZonosMLX
